import Mathlib

/-!
Verification development for the UI/HUD layer of the VoxelEngine-Cpp
repository: the UiDocument id-to-node index built by tree traversal
(src/UiDocument.cpp) and the HudRenderer input-driven state machine
(src/frontend/hud.cpp).
-/

set_option maxRecDepth 4000

/-! ## UI node tree (gui::UINode / gui::Container)

Modelled from the spec: the gui widget classes (gui/UINode.h, gui/panels.h)
are not included in the provided sources; per the spec, the node tree is a
hierarchical leaf/composite structure where every node carries an id string
and a Container additionally owns an ordered child list (getNodes()).
-/

inductive UINode where
  | leaf (id : String)
  | container (id : String) (children : List UINode)
deriving Repr

/-- The id string of a node (UINode::getId). -/
def UINode.getId : UINode → String
  | .leaf i => i
  | .container i _ => i

/-- Maps are modelled extensionally: uinodes_map sends an id string to the
node stored under it, if any (std::map holds at most one entry per key). -/
def UinodesMap : Type := String → Option UINode

/-- The empty map. -/
def UinodesMap.empty : UinodesMap := fun _ => none

/-- Store a node under a key, overwriting any previous entry
(the effect of map[id] = node). -/
def UinodesMap.store (m : UinodesMap) (k : String) (n : UINode) : UinodesMap :=
  fun s => if s = k then some n else m s

mutual

/-- UiDocument::collect: visit a node; if its id is non-empty store it in
the map, then recurse into the child list when the node is a Container.
The C++ inserts before recursing, so children processed later overwrite. -/
def collect (m : UinodesMap) (n : UINode) : UinodesMap :=
  let m1 := if n.getId = "" then m else m.store n.getId n
  match n with
  | .leaf _ => m1
  | .container _ cs => collectList m1 cs

/-- The fold of collect over a child list, left to right. -/
def collectList (m : UinodesMap) (ns : List UINode) : UinodesMap :=
  match ns with
  | [] => m
  | n :: rest => collectList (collect m n) rest

end

/-- The map built by the UiDocument constructor: collect over the root
starting from an empty map. -/
def docMap (root : UINode) : UinodesMap :=
  collect UinodesMap.empty root

mutual

/-- The depth-first pre-order visit sequence of collect: the node itself,
then the traversals of its children in list order. -/
def preorder (n : UINode) : List UINode :=
  match n with
  | .leaf i => [.leaf i]
  | .container i cs => .container i cs :: preorderList cs

/-- Pre-order visit sequence of a child list. -/
def preorderList (ns : List UINode) : List UINode :=
  match ns with
  | [] => []
  | n :: rest => preorder n ++ preorderList rest

end

/-- Reachability from a root by descending through Container child lists. -/
inductive Reaches : UINode → UINode → Prop
  | refl (n : UINode) : Reaches n n
  | step {i : String} {cs : List UINode} {c m : UINode} :
      c ∈ cs → Reaches c m → Reaches (.container i cs) m

/-- The last element of a list if it has one, a default option otherwise. -/
def lastOr (l : List UINode) (d : Option UINode) : Option UINode :=
  match l with
  | [] => d
  | x :: xs => lastOr xs (some x)

theorem lastOr_append (a b : List UINode) (d : Option UINode) :
    lastOr (a ++ b) d = lastOr b (lastOr a d) := by
  induction a generalizing d with
  | nil => rfl
  | cons x xs ih => simp [lastOr, ih]

theorem lastOr_eq_some (l : List UINode) (d : Option UINode) :
    ∀ v, lastOr l d = some v → v ∈ l ∨ d = some v := by
  induction l generalizing d with
  | nil => intro v hv; exact Or.inr hv
  | cons x xs ih =>
    intro v hv
    rcases ih (some x) v hv with h | h
    · exact Or.inl (List.mem_cons_of_mem _ h)
    · cases h; exact Or.inl (List.mem_cons_self _ _)

theorem lastOr_ne_nil (l : List UINode) (d : Option UINode) (h : l ≠ []) :
    lastOr l d = l.getLast? := by
  induction l generalizing d with
  | nil => exact absurd rfl h
  | cons x xs ih =>
    cases xs with
    | nil => rfl
    | cons y ys =>
      rw [List.getLast?_cons_cons]
      exact ih (some x) (by simp)

theorem lastOr_nonempty (l : List UINode) (d : Option UINode)
    (h : l ≠ []) : ∃ v, lastOr l d = some v ∧ v ∈ l := by
  induction l generalizing d with
  | nil => exact absurd rfl h
  | cons y ys ih =>
    cases ys with
    | nil => exact ⟨y, rfl, List.mem_cons_self _ _⟩
    | cons z zs =>
      obtain ⟨v, hv, hmem⟩ := ih (some y) (by simp)
      exact ⟨v, hv, List.mem_cons_of_mem _ hmem⟩

/-- Nodes matching a given id, in visit order. -/
def matchingNodes (l : List UINode) (k : String) : List UINode :=
  l.filter (fun x => x.getId = k)

theorem matchingNodes_nil (k : String) : matchingNodes [] k = [] := rfl

theorem matchingNodes_cons (x : UINode) (l : List UINode) (k : String) :
    matchingNodes (x :: l) k =
      if x.getId = k then x :: matchingNodes l k else matchingNodes l k := by
  simp only [matchingNodes, List.filter_cons]
  by_cases h : x.getId = k <;> simp [h]

theorem matchingNodes_append (a b : List UINode) (k : String) :
    matchingNodes (a ++ b) k = matchingNodes a k ++ matchingNodes b k := by
  simp [matchingNodes, List.filter_append]

theorem mem_matchingNodes {l : List UINode} {k : String} {x : UINode} :
    x ∈ matchingNodes l k ↔ x ∈ l ∧ x.getId = k := by
  simp [matchingNodes, List.mem_filter]

/-- Storing under key k then reading key k yields the stored node. -/
theorem UinodesMap.store_same (m : UinodesMap) (k : String) (n : UINode) :
    m.store k n k = some n := by
  simp [UinodesMap.store]

/-- Storing under another key leaves a read unchanged. -/
theorem UinodesMap.store_other (m : UinodesMap) (k s : String) (n : UINode)
    (h : ¬s = k) : m.store k n s = m s := by
  simp [UinodesMap.store, h]

theorem UINode.getId_leaf (i : String) : (UINode.leaf i).getId = i := rfl

theorem UINode.getId_container (i : String) (cs : List UINode) :
    (UINode.container i cs).getId = i := rfl

theorem lastOr_nil (d : Option UINode) : lastOr [] d = d := rfl

theorem lastOr_cons (x : UINode) (xs : List UINode) (d : Option UINode) :
    lastOr (x :: xs) d = lastOr xs (some x) := rfl

theorem collect_leaf (m : UinodesMap) (i : String) :
    collect m (UINode.leaf i) =
      if i = "" then m else m.store i (UINode.leaf i) := by
  simp [collect, UINode.getId]

theorem collect_container (m : UinodesMap) (i : String) (cs : List UINode) :
    collect m (UINode.container i cs) =
      collectList (if i = "" then m else m.store i (UINode.container i cs))
        cs := by
  simp [collect, UINode.getId]

theorem collectList_nil (m : UinodesMap) : collectList m [] = m := rfl

theorem collectList_cons (m : UinodesMap) (n : UINode) (rest : List UINode) :
    collectList m (n :: rest) = collectList (collect m n) rest := rfl

theorem preorder_leaf (i : String) :
    preorder (UINode.leaf i) = [UINode.leaf i] := rfl

theorem preorder_container (i : String) (cs : List UINode) :
    preorder (UINode.container i cs) =
      UINode.container i cs :: preorderList cs := rfl

theorem preorderList_nil : preorderList [] = [] := rfl

theorem preorderList_cons (n : UINode) (rest : List UINode) :
    preorderList (n :: rest) = preorder n ++ preorderList rest := rfl

mutual

theorem collect_spec (n : UINode) : ∀ (m : UinodesMap) (k : String),
    collect m n k =
      if k = "" then m k else lastOr (matchingNodes (preorder n) k) (m k) := by
  intro m k
  cases n with
  | leaf i =>
    rw [collect_leaf, preorder_leaf, matchingNodes_cons, matchingNodes_nil,
      UINode.getId_leaf]
    by_cases hk : k = ""
    · subst hk
      rw [if_pos rfl]
      by_cases hi : i = ""
      · rw [if_pos hi]
      · rw [if_neg hi]
        exact UinodesMap.store_other m i "" _ (fun h => hi h.symm)
    · rw [if_neg hk]
      by_cases hik : i = k
      · subst hik
        rw [if_neg hk, if_pos rfl, UinodesMap.store_same]
        rfl
      · rw [if_neg hik, lastOr_nil]
        by_cases hi : i = ""
        · rw [if_pos hi]
        · rw [if_neg hi]
          exact UinodesMap.store_other m i k _ (fun h => hik h.symm)
  | container i cs =>
    rw [collect_container]
    rw [collectList_spec cs]
    rw [preorder_container, matchingNodes_cons, UINode.getId_container]
    by_cases hk : k = ""
    · subst hk
      rw [if_pos rfl, if_pos rfl]
      by_cases hi : i = ""
      · rw [if_pos hi]
      · rw [if_neg hi]
        exact UinodesMap.store_other m i "" _ (fun h => hi h.symm)
    · rw [if_neg hk, if_neg hk]
      by_cases hik : i = k
      · subst hik
        rw [if_neg hk, if_pos rfl, UinodesMap.store_same, lastOr_cons]
      · rw [if_neg hik]
        by_cases hi : i = ""
        · rw [if_pos hi]
        · rw [if_neg hi,
            UinodesMap.store_other m i k _ (fun h => hik h.symm)]

theorem collectList_spec (ns : List UINode) : ∀ (m : UinodesMap) (k : String),
    collectList m ns k =
      if k = "" then m k
      else lastOr (matchingNodes (preorderList ns) k) (m k) := by
  intro m k
  cases ns with
  | nil =>
    rw [collectList_nil, preorderList_nil, matchingNodes_nil, lastOr_nil]
    by_cases hk : k = "" <;> simp [hk]
  | cons n rest =>
    rw [collectList_cons, collectList_spec rest, collect_spec n,
      preorderList_cons, matchingNodes_append, lastOr_append]
    by_cases hk : k = "" <;> simp [hk]

end

theorem mem_preorderList_of_mem {c : UINode} {cs : List UINode}
    (hc : c ∈ cs) {x : UINode} (hx : x ∈ preorder c) :
    x ∈ preorderList cs := by
  induction cs with
  | nil => cases hc
  | cons d ds ih =>
    rw [preorderList_cons]
    rcases List.mem_cons.mp hc with h | h
    · subst h; exact List.mem_append_left _ hx
    · exact List.mem_append_right _ (ih h)

theorem self_mem_preorder (n : UINode) : n ∈ preorder n := by
  cases n with
  | leaf i => rw [preorder_leaf]; exact List.mem_cons_self _ _
  | container i cs => rw [preorder_container]; exact List.mem_cons_self _ _

theorem mem_preorder_of_reaches {r n : UINode} (h : Reaches r n) :
    n ∈ preorder r := by
  induction h with
  | refl n => exact self_mem_preorder n
  | step hc _ ih =>
    rw [preorder_container]
    exact List.mem_cons_of_mem _ (mem_preorderList_of_mem hc ih)

/-- C1: constructing a UiDocument builds an id-to-node index by tree
traversal: every node reachable from the root with a non-empty id has an
entry in the map under that id mapping to a node carrying that id, and
every entry of the map has a non-empty key equal to the id of the stored
node (so no node with an empty id is ever added). -/
theorem uidocument_collect_indexes (root : UINode) :
    (∀ n, Reaches root n → n.getId ≠ "" →
      ∃ v, docMap root n.getId = some v ∧ v.getId = n.getId) ∧
    (∀ k v, docMap root k = some v → k ≠ "" ∧ v.getId = k) := by
  constructor
  · intro n hr hid
    have hmem : n ∈ matchingNodes (preorder root) n.getId :=
      mem_matchingNodes.mpr ⟨mem_preorder_of_reaches hr, rfl⟩
    have hne : matchingNodes (preorder root) n.getId ≠ [] :=
      List.ne_nil_of_mem hmem
    obtain ⟨v, hv, hvmem⟩ := lastOr_nonempty _ (UinodesMap.empty n.getId) hne
    refine ⟨v, ?_, (mem_matchingNodes.mp hvmem).2⟩
    rw [docMap, collect_spec, if_neg hid]
    exact hv
  · intro k v hv
    rw [docMap, collect_spec] at hv
    by_cases hk : k = ""
    · rw [if_pos hk] at hv
      exact absurd hv (by simp [UinodesMap.empty])
    · rw [if_neg hk] at hv
      rcases lastOr_eq_some _ _ v hv with h | h
      · exact ⟨hk, (mem_matchingNodes.mp h).2⟩
      · exact absurd h (by simp [UinodesMap.empty])

/-- Concrete document tree used to instantiate the C1 theorem. -/
def sampleTree : UINode :=
  .container "root" [.leaf "a", .container "" [.leaf "b"]]

/-- Witness for C1: in the sample tree the reachable node with id b is
indexed, and its entry carries id b. -/
theorem uidocument_collect_indexes_witness :
    ∃ v, docMap sampleTree "b" = some v ∧ v.getId = "b" := by
  have h1 : Reaches (UINode.container "" [UINode.leaf "b"])
      (UINode.leaf "b") :=
    Reaches.step (List.mem_cons_self _ _) (Reaches.refl _)
  have h2 : UINode.container "" [UINode.leaf "b"] ∈
      [UINode.leaf "a", UINode.container "" [UINode.leaf "b"]] :=
    List.mem_cons_of_mem _ (List.mem_cons_self _ _)
  have hr : Reaches sampleTree (.leaf "b") := Reaches.step h2 h1
  exact (uidocument_collect_indexes sampleTree).1 (.leaf "b") hr (by decide)

/-- C10: duplicate non-empty ids resolve last-wins: the map holds exactly
one entry for the id, namely the node visited last in the depth-first
pre-order traversal performed by collect. -/
theorem uidocument_duplicate_ids_last_wins (root : UINode) (k : String)
    (hk : k ≠ "") (hdup : 2 ≤ (matchingNodes (preorder root) k).length) :
    ∃ v, (matchingNodes (preorder root) k).getLast? = some v ∧
      docMap root k = some v := by
  have hne : matchingNodes (preorder root) k ≠ [] := by
    intro h
    rw [h] at hdup
    simp at hdup
  obtain ⟨v, hv, _⟩ := lastOr_nonempty _ (UinodesMap.empty k) hne
  refine ⟨v, ?_, ?_⟩
  · rw [← lastOr_ne_nil _ (UinodesMap.empty k) hne]
    exact hv
  · rw [docMap, collect_spec, if_neg hk]
    exact hv

/-- Concrete tree with three nodes sharing the id a. -/
def dupTree : UINode :=
  .container "" [.leaf "a", .container "a" [.container "a" []]]

/-- Witness for C10: the duplicate id a in the sample tree resolves to the
last pre-order visit. -/
theorem uidocument_duplicate_ids_last_wins_witness :
    ∃ v, (matchingNodes (preorder dupTree) "a").getLast? = some v ∧
      docMap dupTree "a" = some v :=
  uidocument_duplicate_ids_last_wins dupTree "a" (by decide) (by decide)

/-! ## HudRenderer state machine (src/frontend/hud.cpp)

The HudRenderer fields pause and inventoryOpen, the player chosen slot,
the menu page, the cursor lock flag of Events and the visibility flags of
the owned panels are modelled as one record. External collaborators are
modelled from the spec where their code is not among the provided sources:
the menu (a current page that setPage sets and reset clears; a page may or
may not carry a panel), Events (just-pressed keys, the scroll wheel
accumulator, the cursor lock flag toggled by toggleCursor), the Player
chosen slot (a plain int field), ItemStack (id and count; clear empties
it) and the scripting callbacks on_ui_open / on_ui_close, which do not
touch any of the modelled state. -/

structure ItemStack where
  itemId : Nat
  count : Nat
deriving Repr, DecidableEq

/-- Modelled from the spec: ItemStack::clear (items/ItemStack, not among
the provided sources) empties the stack. -/
def ItemStack.cleared : ItemStack := ⟨0, 0⟩

structure HudState where
  pause : Bool
  inventoryOpen : Bool
  menuPage : Option String
  cursorLocked : Bool
  chosenSlot : Int
  grabbed : ItemStack
  inventoryView : Bool
  inventoryDocument : Bool
  playerInventory : List ItemStack
  playerDebug : Bool
  debugPanelVisible : Bool
  menuVisible : Bool
  contentPanelVisible : Bool
  hotbarVisible : Bool
  darkOverlayVisible : Bool
deriving Repr

/-- The per-frame inputs read by HudRenderer::update from Events and the
GUI: the visible argument, the just-pressed state of ESCAPE and of the
digit keys (indexed by GLFW keycode), whether GUI focus is caught, the
HUD_INVENTORY binding, and the scroll wheel delta. -/
structure HudInput where
  visible : Bool
  escapePressed : Bool
  focusCaught : Bool
  inventoryBind : Bool
  scroll : Int
  jpressed : Nat → Bool

/-- Keycode of the digit 0 key (GLFW_KEY_0). -/
def kNUM0 : Nat := 48

/-- Keycode of the digit 1 key (GLFW_KEY_1); keys 1..9 are consecutive. -/
def kNUM1 : Nat := 49

/-- Whether menu->current().panel is non-null: a page must be set and the
page registry must carry a panel for it. -/
def menuHasPanel (pagePanel : String → Bool) : Option String → Bool
  | none => false
  | some p => pagePanel p

/-- HudRenderer::closeInventory: notify the script, drop the open flag,
clear the grabbed stack, remove the view and null both pointers.  The
player inventory model itself is not touched. -/
def closeInventory (s : HudState) : HudState :=
  { s with inventoryOpen := false, grabbed := ItemStack.cleared,
           inventoryView := false, inventoryDocument := false }

/-- HudRenderer::openInventory: set the open flag, load the layout
document and bind its view to the player inventory. -/
def openInventory (s : HudState) : HudState :=
  { s with inventoryOpen := true, inventoryView := true,
           inventoryDocument := true }

/-- Lines 283-284: refresh debug panel and menu visibility. -/
def hudVisStep (visible : Bool) (s : HudState) : HudState :=
  { s with debugPanelVisible := s.playerDebug && visible,
           menuVisible := s.pause }

/-- Lines 286-288: close the inventory when the HUD became invisible. -/
def hiddenCloseStep (visible : Bool) (s : HudState) : HudState :=
  if visible = false ∧ s.inventoryOpen = true then closeInventory s else s

/-- Lines 289-291: drop pause when the menu has no current panel. -/
def menuGuardStep (pagePanel : String → Bool) (s : HudState) : HudState :=
  if s.pause = true ∧ menuHasPanel pagePanel s.menuPage = false then
    { s with pause := false }
  else s

/-- Lines 292-302: the ESCAPE handler. -/
def escapeStep (esc caught : Bool) (s : HudState) : HudState :=
  if esc = true ∧ caught = false then
    if s.pause = true then { s with pause := false, menuPage := none }
    else if s.inventoryOpen = true then closeInventory s
    else { s with pause := true, menuPage := some "pause" }
  else s

/-- Lines 303-311: the HUD_INVENTORY binding toggles the inventory, but
only while visible and not paused. -/
def inventoryToggleStep (visible bind : Bool) (s : HudState) : HudState :=
  if visible = true ∧ bind = true then
    if s.pause = false then
      if s.inventoryOpen = true then closeInventory s else openInventory s
    else s
  else s

/-- Lines 312-314: toggle the cursor whenever its lock flag agrees with
pause-or-inventory. -/
def cursorStep (s : HudState) : HudState :=
  if (s.pause || s.inventoryOpen) = s.cursorLocked then
    { s with cursorLocked := !s.cursorLocked }
  else s

/-- Lines 316-319: content-access panel and hotbar visibility. -/
def panelsStep (visible : Bool) (s : HudState) : HudState :=
  { s with contentPanelVisible := s.inventoryOpen,
           hotbarVisible := visible }

/-- Lines 321-328: the digit-key hotbar selection: the loop over keycodes
NUM_1..NUM_9 sets slot i - NUM_1 for each pressed key, then NUM_0 sets
slot 9. -/
def digitStep (jp : Nat → Bool) (slot : Int) : Int :=
  let s1 := (List.range' kNUM1 9).foldl
    (fun acc i => if jp i then (i : Int) - (kNUM1 : Int) else acc) slot
  if jp kNUM0 then 9 else s1

/-- The digit-key part of update as a state transformer. -/
def digitKeysStep (jp : Nat → Bool) (s : HudState) : HudState :=
  { s with chosenSlot := digitStep jp s.chosenSlot }

/-- Lines 330-335: the new chosen slot after a scroll: C truncated
remainder by 10 followed by the add-10-if-negative fixup. -/
def scrollSlot (slot scroll : Int) : Int :=
  let r := (slot - scroll).tmod 10
  if r < 0 then r + 10 else r

/-- Lines 329-336: scrolling moves the chosen slot, but only while
neither paused nor in the inventory and the wheel actually moved. -/
def scrollStep (scroll : Int) (s : HudState) : HudState :=
  if s.pause = false ∧ s.inventoryOpen = false ∧ scroll ≠ 0 then
    { s with chosenSlot := scrollSlot s.chosenSlot scroll }
  else s

/-- Line 338: dark overlay visibility follows pause. -/
def overlayStep (s : HudState) : HudState :=
  { s with darkOverlayVisible := s.pause }

/-- HudRenderer::update: the statements of lines 283-338 in source
order. -/
def update (pagePanel : String → Bool) (inp : HudInput) (s : HudState) :
    HudState :=
  overlayStep (scrollStep inp.scroll (digitKeysStep inp.jpressed
    (panelsStep inp.visible (cursorStep
      (inventoryToggleStep inp.visible inp.inventoryBind
        (escapeStep inp.escapePressed inp.focusCaught
          (menuGuardStep pagePanel
            (hiddenCloseStep inp.visible
              (hudVisStep inp.visible s)))))))))

/-- A sequence of update calls (one per frame). -/
def updates (pagePanel : String → Bool) (inps : List HudInput)
    (s : HudState) : HudState :=
  inps.foldl (fun t i => update pagePanel i t) s

/-- What HudRenderer::draw emits that the claims speak about: whether the
crosshair line batch is issued (line 391) and which hotbar slot is marked
selected (line 387). -/
structure DrawOutput where
  crosshair : Bool
  hotbarSelected : Int
deriving Repr, DecidableEq

/-- HudRenderer::draw, restricted to the modelled outputs: the crosshair
is drawn only when not paused, the cursor is locked and the player is not
in debug mode. -/
def draw (s : HudState) : DrawOutput :=
  { crosshair := !s.pause && s.cursorLocked && !s.playerDebug,
    hotbarSelected := s.chosenSlot }

theorem closeInventory_pause (s : HudState) :
    (closeInventory s).pause = s.pause := rfl

theorem closeInventory_menuPage (s : HudState) :
    (closeInventory s).menuPage = s.menuPage := rfl

theorem hiddenCloseStep_pause (v : Bool) (s : HudState) :
    (hiddenCloseStep v s).pause = s.pause := by
  simp [hiddenCloseStep, apply_ite HudState.pause, closeInventory]

theorem hiddenCloseStep_menuPage (v : Bool) (s : HudState) :
    (hiddenCloseStep v s).menuPage = s.menuPage := by
  simp [hiddenCloseStep, apply_ite HudState.menuPage, closeInventory]

theorem hiddenCloseStep_chosenSlot (v : Bool) (s : HudState) :
    (hiddenCloseStep v s).chosenSlot = s.chosenSlot := by
  simp [hiddenCloseStep, apply_ite HudState.chosenSlot, closeInventory]

theorem hiddenCloseStep_cursorLocked (v : Bool) (s : HudState) :
    (hiddenCloseStep v s).cursorLocked = s.cursorLocked := by
  simp [hiddenCloseStep, apply_ite HudState.cursorLocked, closeInventory]

theorem hiddenCloseStep_playerDebug (v : Bool) (s : HudState) :
    (hiddenCloseStep v s).playerDebug = s.playerDebug := by
  simp [hiddenCloseStep, apply_ite HudState.playerDebug, closeInventory]

theorem hiddenCloseStep_debugPanelVisible (v : Bool) (s : HudState) :
    (hiddenCloseStep v s).debugPanelVisible = s.debugPanelVisible := by
  simp [hiddenCloseStep, apply_ite HudState.debugPanelVisible,
    closeInventory]

theorem hiddenCloseStep_visible (s : HudState) :
    hiddenCloseStep true s = s := by
  simp [hiddenCloseStep]

theorem menuGuardStep_inventoryOpen (pp : String → Bool) (s : HudState) :
    (menuGuardStep pp s).inventoryOpen = s.inventoryOpen := by
  simp [menuGuardStep, apply_ite HudState.inventoryOpen]

theorem menuGuardStep_menuPage (pp : String → Bool) (s : HudState) :
    (menuGuardStep pp s).menuPage = s.menuPage := by
  simp [menuGuardStep, apply_ite HudState.menuPage]

theorem menuGuardStep_chosenSlot (pp : String → Bool) (s : HudState) :
    (menuGuardStep pp s).chosenSlot = s.chosenSlot := by
  simp [menuGuardStep, apply_ite HudState.chosenSlot]

theorem menuGuardStep_cursorLocked (pp : String → Bool) (s : HudState) :
    (menuGuardStep pp s).cursorLocked = s.cursorLocked := by
  simp [menuGuardStep, apply_ite HudState.cursorLocked]

theorem menuGuardStep_playerDebug (pp : String → Bool) (s : HudState) :
    (menuGuardStep pp s).playerDebug = s.playerDebug := by
  simp [menuGuardStep, apply_ite HudState.playerDebug]

theorem menuGuardStep_debugPanelVisible (pp : String → Bool) (s : HudState) :
    (menuGuardStep pp s).debugPanelVisible = s.debugPanelVisible := by
  simp [menuGuardStep, apply_ite HudState.debugPanelVisible]

theorem menuGuardStep_consistent (pp : String → Bool) (s : HudState)
    (h : s.pause = true → menuHasPanel pp s.menuPage = true) :
    menuGuardStep pp s = s := by
  unfold menuGuardStep
  rw [if_neg]
  rintro ⟨h1, h2⟩
  rw [h h1] at h2
  cases h2

theorem escapeStep_chosenSlot (e c : Bool) (s : HudState) :
    (escapeStep e c s).chosenSlot = s.chosenSlot := by
  simp [escapeStep, apply_ite HudState.chosenSlot, closeInventory]

theorem escapeStep_cursorLocked (e c : Bool) (s : HudState) :
    (escapeStep e c s).cursorLocked = s.cursorLocked := by
  simp [escapeStep, apply_ite HudState.cursorLocked, closeInventory]

theorem escapeStep_playerDebug (e c : Bool) (s : HudState) :
    (escapeStep e c s).playerDebug = s.playerDebug := by
  simp [escapeStep, apply_ite HudState.playerDebug, closeInventory]

theorem escapeStep_debugPanelVisible (e c : Bool) (s : HudState) :
    (escapeStep e c s).debugPanelVisible = s.debugPanelVisible := by
  simp [escapeStep, apply_ite HudState.debugPanelVisible, closeInventory]

theorem escapeStep_skip (e c : Bool) (s : HudState)
    (h : ¬(e = true ∧ c = false)) : escapeStep e c s = s := by
  unfold escapeStep
  rw [if_neg h]

theorem inventoryToggleStep_chosenSlot (v b : Bool) (s : HudState) :
    (inventoryToggleStep v b s).chosenSlot = s.chosenSlot := by
  simp [inventoryToggleStep, apply_ite HudState.chosenSlot,
    closeInventory, openInventory]

theorem inventoryToggleStep_cursorLocked (v b : Bool) (s : HudState) :
    (inventoryToggleStep v b s).cursorLocked = s.cursorLocked := by
  simp [inventoryToggleStep, apply_ite HudState.cursorLocked,
    closeInventory, openInventory]

theorem inventoryToggleStep_playerDebug (v b : Bool) (s : HudState) :
    (inventoryToggleStep v b s).playerDebug = s.playerDebug := by
  simp [inventoryToggleStep, apply_ite HudState.playerDebug,
    closeInventory, openInventory]

theorem inventoryToggleStep_debugPanelVisible (v b : Bool) (s : HudState) :
    (inventoryToggleStep v b s).debugPanelVisible = s.debugPanelVisible := by
  simp [inventoryToggleStep, apply_ite HudState.debugPanelVisible,
    closeInventory, openInventory]

theorem inventoryToggleStep_nobind (v : Bool) (s : HudState) :
    inventoryToggleStep v false s = s := by
  simp [inventoryToggleStep]

theorem cursorStep_pause (s : HudState) :
    (cursorStep s).pause = s.pause := by
  simp [cursorStep, apply_ite HudState.pause]

theorem cursorStep_inventoryOpen (s : HudState) :
    (cursorStep s).inventoryOpen = s.inventoryOpen := by
  simp [cursorStep, apply_ite HudState.inventoryOpen]

theorem cursorStep_menuPage (s : HudState) :
    (cursorStep s).menuPage = s.menuPage := by
  simp [cursorStep, apply_ite HudState.menuPage]

theorem cursorStep_chosenSlot (s : HudState) :
    (cursorStep s).chosenSlot = s.chosenSlot := by
  simp [cursorStep, apply_ite HudState.chosenSlot]

theorem cursorStep_playerDebug (s : HudState) :
    (cursorStep s).playerDebug = s.playerDebug := by
  simp [cursorStep, apply_ite HudState.playerDebug]

theorem cursorStep_debugPanelVisible (s : HudState) :
    (cursorStep s).debugPanelVisible = s.debugPanelVisible := by
  simp [cursorStep, apply_ite HudState.debugPanelVisible]

theorem cursorStep_locked (s : HudState) :
    (cursorStep s).cursorLocked =
      !((cursorStep s).pause || (cursorStep s).inventoryOpen) := by
  rw [cursorStep_pause, cursorStep_inventoryOpen]
  unfold cursorStep
  by_cases h : (s.pause || s.inventoryOpen) = s.cursorLocked
  · rw [if_pos h, h]
  · rw [if_neg h]
    cases hp : (s.pause || s.inventoryOpen) <;>
      cases hc : s.cursorLocked <;> simp_all

theorem scrollStep_pause (sc : Int) (s : HudState) :
    (scrollStep sc s).pause = s.pause := by
  simp [scrollStep, apply_ite HudState.pause]

theorem scrollStep_inventoryOpen (sc : Int) (s : HudState) :
    (scrollStep sc s).inventoryOpen = s.inventoryOpen := by
  simp [scrollStep, apply_ite HudState.inventoryOpen]

theorem scrollStep_menuPage (sc : Int) (s : HudState) :
    (scrollStep sc s).menuPage = s.menuPage := by
  simp [scrollStep, apply_ite HudState.menuPage]

theorem scrollStep_cursorLocked (sc : Int) (s : HudState) :
    (scrollStep sc s).cursorLocked = s.cursorLocked := by
  simp [scrollStep, apply_ite HudState.cursorLocked]

theorem scrollStep_playerDebug (sc : Int) (s : HudState) :
    (scrollStep sc s).playerDebug = s.playerDebug := by
  simp [scrollStep, apply_ite HudState.playerDebug]

theorem scrollStep_debugPanelVisible (sc : Int) (s : HudState) :
    (scrollStep sc s).debugPanelVisible = s.debugPanelVisible := by
  simp [scrollStep, apply_ite HudState.debugPanelVisible]

theorem scrollStep_hotbarVisible (sc : Int) (s : HudState) :
    (scrollStep sc s).hotbarVisible = s.hotbarVisible := by
  simp [scrollStep, apply_ite HudState.hotbarVisible]

theorem scrollStep_zero (s : HudState) : scrollStep 0 s = s := by
  simp [scrollStep]

theorem hudVisStep_chosenSlot (v : Bool) (s : HudState) :
    (hudVisStep v s).chosenSlot = s.chosenSlot := rfl

theorem panelsStep_chosenSlot (v : Bool) (s : HudState) :
    (panelsStep v s).chosenSlot = s.chosenSlot := rfl

theorem panelsStep_pause (v : Bool) (s : HudState) :
    (panelsStep v s).pause = s.pause := rfl

theorem panelsStep_inventoryOpen (v : Bool) (s : HudState) :
    (panelsStep v s).inventoryOpen = s.inventoryOpen := rfl

theorem digitKeysStep_pause (jp : Nat → Bool) (s : HudState) :
    (digitKeysStep jp s).pause = s.pause := rfl

theorem digitKeysStep_inventoryOpen (jp : Nat → Bool) (s : HudState) :
    (digitKeysStep jp s).inventoryOpen = s.inventoryOpen := rfl

theorem digitKeysStep_chosenSlot (jp : Nat → Bool) (s : HudState) :
    (digitKeysStep jp s).chosenSlot = digitStep jp s.chosenSlot := rfl

theorem overlayStep_pause (s : HudState) :
    (overlayStep s).pause = s.pause := rfl

theorem overlayStep_inventoryOpen (s : HudState) :
    (overlayStep s).inventoryOpen = s.inventoryOpen := rfl

theorem overlayStep_menuPage (s : HudState) :
    (overlayStep s).menuPage = s.menuPage := rfl

theorem overlayStep_cursorLocked (s : HudState) :
    (overlayStep s).cursorLocked = s.cursorLocked := rfl

theorem overlayStep_chosenSlot (s : HudState) :
    (overlayStep s).chosenSlot = s.chosenSlot := rfl

/-- The chosen slot of the post-update state is the scroll step applied
after the digit-key step; none of the other statements touch it. -/
theorem update_chosenSlot (pp : String → Bool) (inp : HudInput)
    (s : HudState) :
    (update pp inp s).chosenSlot =
      (scrollStep inp.scroll (digitKeysStep inp.jpressed
        (panelsStep inp.visible (cursorStep
          (inventoryToggleStep inp.visible inp.inventoryBind
            (escapeStep inp.escapePressed inp.focusCaught
              (menuGuardStep pp (hiddenCloseStep inp.visible
                (hudVisStep inp.visible s))))))))).chosenSlot := by
  unfold update
  rw [overlayStep_chosenSlot]

/-- The pause flag is decided by the time the inventory toggle ran. -/
theorem update_pause (pp : String → Bool) (inp : HudInput) (s : HudState) :
    (update pp inp s).pause =
      (inventoryToggleStep inp.visible inp.inventoryBind
        (escapeStep inp.escapePressed inp.focusCaught
          (menuGuardStep pp (hiddenCloseStep inp.visible
            (hudVisStep inp.visible s))))).pause := by
  unfold update
  rw [overlayStep_pause, scrollStep_pause]
  rw [digitKeysStep_pause, panelsStep_pause, cursorStep_pause]

/-- The inventory-open flag is decided by the inventory toggle too. -/
theorem update_inventoryOpen (pp : String → Bool) (inp : HudInput)
    (s : HudState) :
    (update pp inp s).inventoryOpen =
      (inventoryToggleStep inp.visible inp.inventoryBind
        (escapeStep inp.escapePressed inp.focusCaught
          (menuGuardStep pp (hiddenCloseStep inp.visible
            (hudVisStep inp.visible s))))).inventoryOpen := by
  unfold update
  rw [overlayStep_inventoryOpen, scrollStep_inventoryOpen]
  rw [digitKeysStep_inventoryOpen, panelsStep_inventoryOpen,
    cursorStep_inventoryOpen]

theorem digitKeysStep_menuPage (jp : Nat → Bool) (s : HudState) :
    (digitKeysStep jp s).menuPage = s.menuPage := rfl

theorem panelsStep_menuPage (v : Bool) (s : HudState) :
    (panelsStep v s).menuPage = s.menuPage := rfl

theorem inventoryToggleStep_menuPage (v b : Bool) (s : HudState) :
    (inventoryToggleStep v b s).menuPage = s.menuPage := by
  simp [inventoryToggleStep, apply_ite HudState.menuPage,
    closeInventory, openInventory]

/-- The menu page is decided by the time the ESCAPE handler ran. -/
theorem update_menuPage (pp : String → Bool) (inp : HudInput)
    (s : HudState) :
    (update pp inp s).menuPage =
      (escapeStep inp.escapePressed inp.focusCaught
        (menuGuardStep pp (hiddenCloseStep inp.visible
          (hudVisStep inp.visible s)))).menuPage := by
  unfold update
  rw [overlayStep_menuPage, scrollStep_menuPage]
  rw [digitKeysStep_menuPage, panelsStep_menuPage, cursorStep_menuPage,
    inventoryToggleStep_menuPage]

/-- C9: cursor lock tracks the overlay state: at the end of every update
call the cursor is locked exactly when neither pause is active nor the
inventory is open. -/
theorem hud_cursor_tracks_overlay (pp : String → Bool) (inp : HudInput)
    (s : HudState) :
    (update pp inp s).cursorLocked =
      !((update pp inp s).pause || (update pp inp s).inventoryOpen) := by
  unfold update
  rw [overlayStep_cursorLocked, scrollStep_cursorLocked]
  rw [overlayStep_pause, scrollStep_pause, overlayStep_inventoryOpen,
    scrollStep_inventoryOpen]
  rw [show ∀ t : HudState, (digitKeysStep inp.jpressed t).cursorLocked
      = t.cursorLocked from fun _ => rfl]
  rw [digitKeysStep_pause, digitKeysStep_inventoryOpen]
  rw [show ∀ t : HudState, (panelsStep inp.visible t).cursorLocked
      = t.cursorLocked from fun _ => rfl]
  rw [panelsStep_pause, panelsStep_inventoryOpen]
  exact cursorStep_locked _

/-- Pause and inventory-open are never simultaneously introduced by any
single step: the conjunction stays false across closeInventory. -/
theorem hiddenCloseStep_excl (v : Bool) (s : HudState)
    (h : (s.pause && s.inventoryOpen) = false) :
    ((hiddenCloseStep v s).pause && (hiddenCloseStep v s).inventoryOpen)
      = false := by
  unfold hiddenCloseStep closeInventory
  split
  · simp
  · exact h

theorem menuGuardStep_excl (pp : String → Bool) (s : HudState)
    (h : (s.pause && s.inventoryOpen) = false) :
    ((menuGuardStep pp s).pause && (menuGuardStep pp s).inventoryOpen)
      = false := by
  unfold menuGuardStep
  split
  · simp
  · exact h

theorem escapeStep_excl (e c : Bool) (s : HudState)
    (h : (s.pause && s.inventoryOpen) = false) :
    ((escapeStep e c s).pause && (escapeStep e c s).inventoryOpen)
      = false := by
  unfold escapeStep closeInventory
  split
  · split
    · simp
    · split
      · simp
      · simp_all
  · exact h

theorem inventoryToggleStep_excl (v b : Bool) (s : HudState)
    (h : (s.pause && s.inventoryOpen) = false) :
    ((inventoryToggleStep v b s).pause &&
      (inventoryToggleStep v b s).inventoryOpen) = false := by
  unfold inventoryToggleStep closeInventory openInventory
  split
  · split
    · split
      · simp
      · simp_all
    · exact h
  · exact h

/-- One update call preserves the pause-and-inventory exclusion. -/
theorem update_excl (pp : String → Bool) (inp : HudInput) (s : HudState)
    (h : (s.pause && s.inventoryOpen) = false) :
    ((update pp inp s).pause && (update pp inp s).inventoryOpen)
      = false := by
  rw [update_pause, update_inventoryOpen]
  exact inventoryToggleStep_excl _ _ _ (escapeStep_excl _ _ _
    (menuGuardStep_excl _ _ (hiddenCloseStep_excl _ _ h)))

theorem updates_nil (pp : String → Bool) (s : HudState) :
    updates pp [] s = s := rfl

theorem updates_cons (pp : String → Bool) (i : HudInput)
    (rest : List HudInput) (s : HudState) :
    updates pp (i :: rest) s = updates pp rest (update pp i s) := rfl

theorem updates_excl (pp : String → Bool) (inps : List HudInput) :
    ∀ s : HudState, (s.pause && s.inventoryOpen) = false →
      ((updates pp inps s).pause && (updates pp inps s).inventoryOpen)
        = false := by
  induction inps with
  | nil => intro s h; exact h
  | cons i rest ih =>
    intro s h
    rw [updates_cons]
    exact ih _ (update_excl pp i s h)

/-- C8: starting from the initial state with pause and inventoryOpen both
false, no sequence of update calls ever reaches a state where both are
true: the inventory only opens while not paused and pause is only entered
while the inventory is closed. -/
theorem hud_pause_inventory_exclusive (pp : String → Bool)
    (inps : List HudInput) (s : HudState) (hp : s.pause = false)
    (hi : s.inventoryOpen = false) :
    ¬((updates pp inps s).pause = true ∧
      (updates pp inps s).inventoryOpen = true) := by
  rintro ⟨h1, h2⟩
  have h := updates_excl pp inps s (by rw [hp, hi]; rfl)
  rw [h1, h2] at h
  cases h

theorem hudVisStep_pause (v : Bool) (s : HudState) :
    (hudVisStep v s).pause = s.pause := rfl

theorem hudVisStep_inventoryOpen (v : Bool) (s : HudState) :
    (hudVisStep v s).inventoryOpen = s.inventoryOpen := rfl

theorem hudVisStep_menuPage (v : Bool) (s : HudState) :
    (hudVisStep v s).menuPage = s.menuPage := rfl

theorem escapeStep_on_pause (e c : Bool) (s : HudState) (he : e = true)
    (hc : c = false) (hp : s.pause = true) :
    (escapeStep e c s).pause = false ∧ (escapeStep e c s).menuPage = none ∧
    (escapeStep e c s).inventoryOpen = s.inventoryOpen := by
  unfold escapeStep
  rw [if_pos ⟨he, hc⟩, if_pos hp]
  exact ⟨rfl, rfl, rfl⟩

theorem escapeStep_on_inventory (e c : Bool) (s : HudState) (he : e = true)
    (hc : c = false) (hp : s.pause = false) (hi : s.inventoryOpen = true) :
    (escapeStep e c s).pause = s.pause ∧
    (escapeStep e c s).inventoryOpen = false ∧
    (escapeStep e c s).menuPage = s.menuPage := by
  unfold escapeStep closeInventory
  rw [if_pos ⟨he, hc⟩, if_neg (by simp [hp]), if_pos hi]
  exact ⟨rfl, rfl, rfl⟩

theorem escapeStep_on_idle (e c : Bool) (s : HudState) (he : e = true)
    (hc : c = false) (hp : s.pause = false) (hi : s.inventoryOpen = false) :
    (escapeStep e c s).pause = true ∧
    (escapeStep e c s).menuPage = some "pause" ∧
    (escapeStep e c s).inventoryOpen = s.inventoryOpen := by
  unfold escapeStep
  rw [if_pos ⟨he, hc⟩, if_neg (by simp [hp]), if_neg (by simp [hi])]
  exact ⟨rfl, rfl, rfl⟩

/-- C2: with the HUD visible, the inventory binding inactive and the menu
page consistent with pause, an ESCAPE press with GUI focus free performs
exactly one transition: leave pause and reset the menu, or close the open
inventory, or enter pause and set the pause page; and none of these
happens without such a press. -/
theorem hud_escape_transition (pp : String → Bool) (inp : HudInput)
    (s : HudState) (hvis : inp.visible = true)
    (hbind : inp.inventoryBind = false)
    (hcons : s.pause = true → menuHasPanel pp s.menuPage = true) :
    (inp.escapePressed = true ∧ inp.focusCaught = false →
      (s.pause = true ∧ (update pp inp s).pause = false ∧
        (update pp inp s).menuPage = none) ∨
      (s.pause = false ∧ s.inventoryOpen = true ∧
        (update pp inp s).pause = false ∧
        (update pp inp s).inventoryOpen = false) ∨
      (s.pause = false ∧ s.inventoryOpen = false ∧
        (update pp inp s).pause = true ∧
        (update pp inp s).menuPage = some "pause")) ∧
    (¬(inp.escapePressed = true ∧ inp.focusCaught = false) →
      (update pp inp s).pause = s.pause ∧
      (update pp inp s).inventoryOpen = s.inventoryOpen ∧
      (update pp inp s).menuPage = s.menuPage) := by
  have hp2 : (update pp inp s).pause =
      (escapeStep inp.escapePressed inp.focusCaught
        (hudVisStep true s)).pause := by
    rw [update_pause, hvis, hbind, hiddenCloseStep_visible,
      menuGuardStep_consistent pp (hudVisStep true s) hcons, inventoryToggleStep_nobind]
  have hi2 : (update pp inp s).inventoryOpen =
      (escapeStep inp.escapePressed inp.focusCaught
        (hudVisStep true s)).inventoryOpen := by
    rw [update_inventoryOpen, hvis, hbind, hiddenCloseStep_visible,
      menuGuardStep_consistent pp (hudVisStep true s) hcons, inventoryToggleStep_nobind]
  have hm2 : (update pp inp s).menuPage =
      (escapeStep inp.escapePressed inp.focusCaught
        (hudVisStep true s)).menuPage := by
    rw [update_menuPage, hvis, hiddenCloseStep_visible,
      menuGuardStep_consistent pp (hudVisStep true s) hcons]
  constructor
  · rintro ⟨he, hc⟩
    by_cases hp : s.pause = true
    · left
      obtain ⟨h1, h2, _⟩ := escapeStep_on_pause _ _ (hudVisStep true s)
        he hc hp
      exact ⟨hp, by rw [hp2]; exact h1, by rw [hm2]; exact h2⟩
    · have hp' : s.pause = false := by simpa using hp
      by_cases hi : s.inventoryOpen = true
      · right; left
        obtain ⟨h1, h2, _⟩ := escapeStep_on_inventory _ _ (hudVisStep true s)
          he hc hp' hi
        refine ⟨hp', hi, ?_, by rw [hi2]; exact h2⟩
        rw [hp2, h1, hudVisStep_pause, hp']
      · have hi' : s.inventoryOpen = false := by simpa using hi
        right; right
        obtain ⟨h1, h2, _⟩ := escapeStep_on_idle _ _ (hudVisStep true s)
          he hc hp' hi'
        exact ⟨hp', hi', by rw [hp2]; exact h1, by rw [hm2]; exact h2⟩
  · intro hne
    have hid : escapeStep inp.escapePressed inp.focusCaught
        (hudVisStep true s) = hudVisStep true s :=
      escapeStep_skip _ _ _ hne
    refine ⟨?_, ?_, ?_⟩
    · rw [hp2, hid, hudVisStep_pause]
    · rw [hi2, hid, hudVisStep_inventoryOpen]
    · rw [hm2, hid, hudVisStep_menuPage]

/-- A page registry where every page has a panel. -/
def ppSample : String → Bool := fun _ => true

/-- A frame input carrying exactly an ESCAPE press. -/
def inpEsc : HudInput :=
  { visible := true, escapePressed := true, focusCaught := false,
    inventoryBind := false, scroll := 0, jpressed := fun _ => false }

/-- A paused HUD state with the pause page open. -/
def pausedState : HudState :=
  { pause := true, inventoryOpen := false, menuPage := some "pause",
    cursorLocked := false, chosenSlot := 3, grabbed := ItemStack.cleared,
    inventoryView := false, inventoryDocument := false,
    playerInventory := [⟨1, 5⟩], playerDebug := false,
    debugPanelVisible := false, menuVisible := true,
    contentPanelVisible := false, hotbarVisible := true,
    darkOverlayVisible := true }

/-- Witness for C2: from the paused sample state an ESCAPE press leaves
pause and resets the menu. -/
theorem hud_escape_transition_witness :
    (update ppSample inpEsc pausedState).pause = false ∧
    (update ppSample inpEsc pausedState).menuPage = none := by
  have h := (hud_escape_transition ppSample inpEsc pausedState rfl rfl
    (fun _ => rfl)).1 ⟨rfl, rfl⟩
  rcases h with ⟨_, h1, h2⟩ | ⟨h0, _⟩ | ⟨h0, _⟩
  · exact ⟨h1, h2⟩
  · exact absurd h0 (by decide)
  · exact absurd h0 (by decide)

/-- A fresh HUD state: not paused, inventory closed, cursor locked. -/
def freshState : HudState :=
  { pause := false, inventoryOpen := false, menuPage := none,
    cursorLocked := true, chosenSlot := 0, grabbed := ItemStack.cleared,
    inventoryView := false, inventoryDocument := false,
    playerInventory := [⟨1, 5⟩], playerDebug := false,
    debugPanelVisible := false, menuVisible := false,
    contentPanelVisible := false, hotbarVisible := true,
    darkOverlayVisible := false }

/-- Witness for C8: two ESCAPE frames from a fresh state never reach
pause and open-inventory simultaneously. -/
theorem hud_pause_inventory_exclusive_witness :
    ¬((updates ppSample [inpEsc, inpEsc] freshState).pause = true ∧
      (updates ppSample [inpEsc, inpEsc] freshState).inventoryOpen
        = true) :=
  hud_pause_inventory_exclusive ppSample [inpEsc, inpEsc]
    freshState rfl rfl

/-- The C truncated remainder by ten is above minus ten. -/
theorem tmod_ten_lower (a : Int) : -10 < a.tmod 10 := by
  cases a with
  | ofNat m =>
    have h : (Int.ofNat m).tmod 10 = Int.ofNat (m % 10) := rfl
    rw [h, Int.ofNat_eq_coe]
    omega
  | negSucc m =>
    have h : (Int.negSucc m).tmod 10 = -Int.ofNat ((m + 1) % 10) := rfl
    rw [h, Int.ofNat_eq_coe]
    have h2 : (m + 1) % 10 < 10 := Nat.mod_lt _ (by decide)
    omega

/-- The C remainder-then-fixup of lines 331-334 computes the Euclidean
remainder by ten. -/
theorem scrollSlot_eq_emod (slot scroll : Int) :
    scrollSlot slot scroll = (slot - scroll) % 10 := by
  have hq := Int.tmod_add_tdiv (slot - scroll) 10
  have hub : (slot - scroll).tmod 10 < 10 :=
    Int.tmod_lt_of_pos _ (by decide)
  have hlb : -10 < (slot - scroll).tmod 10 := tmod_ten_lower _
  show (if (slot - scroll).tmod 10 < 0 then (slot - scroll).tmod 10 + 10
    else (slot - scroll).tmod 10) = (slot - scroll) % 10
  split <;> omega

theorem scrollStep_fire (sc : Int) (s : HudState) (h1 : s.pause = false)
    (h2 : s.inventoryOpen = false) (h3 : sc ≠ 0) :
    (scrollStep sc s).chosenSlot = scrollSlot s.chosenSlot sc := by
  unfold scrollStep
  rw [if_pos ⟨h1, h2, h3⟩]

theorem scrollStep_skip (sc : Int) (s : HudState)
    (h : ¬(s.pause = false ∧ s.inventoryOpen = false ∧ sc ≠ 0)) :
    scrollStep sc s = s := by
  unfold scrollStep
  rw [if_neg h]

/-- The keycode of a digit key: NUM_0 for 0, NUM_1 + (d - 1) for 1..9. -/
def digitKeycode (d : Nat) : Nat :=
  if d = 0 then kNUM0 else kNUM1 + (d - 1)

/-- Exactly the digit key for d is just-pressed among the digit keys. -/
def onlyDigitKey (jp : Nat → Bool) (d : Nat) : Prop :=
  jp (digitKeycode d) = true ∧
  ∀ c, kNUM0 ≤ c → c ≤ kNUM0 + 9 → c ≠ digitKeycode d → jp c = false

theorem foldl_nofire (jp : Nat → Bool) (l : List Nat) :
    ∀ acc : Int, (∀ e ∈ l, jp e = false) →
      l.foldl (fun a i => if jp i then (i : Int) - (kNUM1 : Int) else a) acc
        = acc := by
  induction l with
  | nil => intro acc _; rfl
  | cons x xs ih =>
    intro acc h
    rw [List.foldl_cons,
      if_neg (by rw [h x (List.mem_cons_self _ _)]; simp)]
    exact ih acc (fun e he => h e (List.mem_cons_of_mem _ he))

theorem foldl_select (jp : Nat → Bool) (c : Nat) (hp : jp c = true) :
    ∀ (l : List Nat) (acc : Int), c ∈ l →
      (∀ e ∈ l, e ≠ c → jp e = false) →
      l.foldl (fun a i => if jp i then (i : Int) - (kNUM1 : Int) else a) acc
        = (c : Int) - (kNUM1 : Int) := by
  intro l
  induction l with
  | nil => intro acc hc _; cases hc
  | cons x xs ih =>
    intro acc hc ho
    rw [List.foldl_cons]
    by_cases hxc : x = c
    · subst hxc
      rw [if_pos hp]
      by_cases hcx : x ∈ xs
      · exact ih _ hcx (fun e he hh => ho e (List.mem_cons_of_mem _ he) hh)
      · exact foldl_nofire jp xs _
          (fun e he => ho e (List.mem_cons_of_mem _ he)
            (fun hec => hcx (hec ▸ he)))
    · rw [if_neg (by rw [ho x (List.mem_cons_self _ _) hxc]; simp)]
      refine ih acc ?_ (fun e he hh => ho e (List.mem_cons_of_mem _ he) hh)
      rcases List.mem_cons.mp hc with h | h
      · exact absurd h.symm hxc
      · exact h

theorem digitStep_nokeys (jp : Nat → Bool) (h : ∀ k, jp k = false)
    (slot : Int) : digitStep jp slot = slot := by
  show (if jp kNUM0 then (9 : Int) else (List.range' kNUM1 9).foldl
    (fun a i => if jp i then (i : Int) - (kNUM1 : Int) else a) slot) = slot
  rw [if_neg (by rw [h kNUM0]; simp),
    foldl_nofire jp _ slot (fun e _ => h e)]

theorem digitStep_only (jp : Nat → Bool) (d : Nat) (h1 : 1 ≤ d)
    (h2 : d ≤ 9) (h : onlyDigitKey jp d) (slot : Int) :
    digitStep jp slot = (d : Int) - 1 := by
  obtain ⟨hp, ho⟩ := h
  have e0 : kNUM0 = 48 := rfl
  have e1 : kNUM1 = 49 := rfl
  have hkc : digitKeycode d = kNUM1 + (d - 1) := by
    unfold digitKeycode
    rw [if_neg (by omega)]
  have hmem : digitKeycode d ∈ List.range' kNUM1 9 := by
    rw [List.mem_range']
    exact ⟨d - 1, by omega, by rw [hkc]; omega⟩
  have hothers : ∀ e ∈ List.range' kNUM1 9, e ≠ digitKeycode d →
      jp e = false := by
    intro e he hne
    obtain ⟨i, hi, rfl⟩ := List.mem_range'.mp he
    exact ho _ (by omega) (by omega) hne
  have hsel := foldl_select jp (digitKeycode d) hp (List.range' kNUM1 9)
    slot hmem hothers
  show (if jp kNUM0 then (9 : Int) else (List.range' kNUM1 9).foldl
    (fun a i => if jp i then (i : Int) - (kNUM1 : Int) else a) slot)
      = (d : Int) - 1
  rw [if_neg (by rw [ho kNUM0 (by omega) (by omega)
      (by rw [hkc]; omega)]; simp), hsel, hkc]
  omega

theorem digitStep_only0 (jp : Nat → Bool) (h : onlyDigitKey jp 0)
    (slot : Int) : digitStep jp slot = 9 := by
  obtain ⟨hp, _⟩ := h
  have hkc : digitKeycode 0 = kNUM0 := rfl
  rw [hkc] at hp
  show (if jp kNUM0 then (9 : Int) else (List.range' kNUM1 9).foldl
    (fun a i => if jp i then (i : Int) - (kNUM1 : Int) else a) slot) = 9
  rw [if_pos hp]

/-- C5: with only a wheel movement as input, scrolling while neither
paused nor in the inventory moves the chosen slot to
((slot - scroll) mod 10 + 10) mod 10, which stays within 0..9; while
paused or in the inventory the chosen slot does not change. -/
theorem hud_scroll_slot (pp : String → Bool) (inp : HudInput)
    (s : HudState) (hvis : inp.visible = true)
    (hbind : inp.inventoryBind = false)
    (hesc : inp.escapePressed = false)
    (hcons : s.pause = true → menuHasPanel pp s.menuPage = true)
    (hkeys : ∀ k, inp.jpressed k = false)
    (hlo : 0 ≤ s.chosenSlot) (hhi : s.chosenSlot ≤ 9) :
    (s.pause = false → s.inventoryOpen = false →
      (update pp inp s).chosenSlot =
        ((s.chosenSlot - inp.scroll) % 10 + 10) % 10 ∧
      0 ≤ (update pp inp s).chosenSlot ∧
      (update pp inp s).chosenSlot ≤ 9) ∧
    ((s.pause = true ∨ s.inventoryOpen = true) →
      (update pp inp s).chosenSlot = s.chosenSlot) := by
  have hskip : escapeStep inp.escapePressed inp.focusCaught
      (hudVisStep true s) = hudVisStep true s :=
    escapeStep_skip _ _ _ (by rintro ⟨a, _⟩; rw [hesc] at a; cases a)
  have hx : (update pp inp s).chosenSlot =
      (scrollStep inp.scroll (digitKeysStep inp.jpressed
        (panelsStep true (cursorStep (hudVisStep true s))))).chosenSlot := by
    rw [update_chosenSlot, hvis, hbind, hiddenCloseStep_visible,
      menuGuardStep_consistent pp (hudVisStep true s) hcons,
      inventoryToggleStep_nobind, hskip]
  have hXp : (digitKeysStep inp.jpressed
      (panelsStep true (cursorStep (hudVisStep true s)))).pause
        = s.pause := by
    rw [digitKeysStep_pause, panelsStep_pause, cursorStep_pause,
      hudVisStep_pause]
  have hXi : (digitKeysStep inp.jpressed
      (panelsStep true (cursorStep (hudVisStep true s)))).inventoryOpen
        = s.inventoryOpen := by
    rw [digitKeysStep_inventoryOpen, panelsStep_inventoryOpen,
      cursorStep_inventoryOpen, hudVisStep_inventoryOpen]
  have hXc : (digitKeysStep inp.jpressed
      (panelsStep true (cursorStep (hudVisStep true s)))).chosenSlot
        = s.chosenSlot := by
    rw [digitKeysStep_chosenSlot, panelsStep_chosenSlot,
      cursorStep_chosenSlot, hudVisStep_chosenSlot, digitStep_nokeys _ hkeys]
  constructor
  · intro hp hi
    by_cases hsc : inp.scroll = 0
    · have hval : (update pp inp s).chosenSlot = s.chosenSlot := by
        rw [hx, hsc, scrollStep_zero, hXc]
      rw [hval, hsc]
      refine ⟨by omega, by omega, by omega⟩
    · have hval : (update pp inp s).chosenSlot =
          scrollSlot s.chosenSlot inp.scroll := by
        rw [hx, scrollStep_fire _ _ (hXp.trans hp) (hXi.trans hi) hsc, hXc]
      rw [hval, scrollSlot_eq_emod]
      refine ⟨by omega, by omega, by omega⟩
  · intro h
    have hno : ¬((digitKeysStep inp.jpressed
        (panelsStep true (cursorStep (hudVisStep true s)))).pause = false ∧
        (digitKeysStep inp.jpressed
          (panelsStep true (cursorStep
            (hudVisStep true s)))).inventoryOpen = false ∧
        inp.scroll ≠ 0) := by
      rintro ⟨a, b, _⟩
      rcases h with h | h
      · rw [hXp, h] at a
        cases a
      · rw [hXi, h] at b
        cases b
    rw [hx, scrollStep_skip _ _ hno, hXc]

/-- A frame input carrying only a scroll of minus four. -/
def inpScroll : HudInput :=
  { visible := true, escapePressed := false, focusCaught := false,
    inventoryBind := false, scroll := -4, jpressed := fun _ => false }

/-- Witness for C5: scrolling by minus four from slot zero lands on the
Euclidean remainder and stays in range. -/
theorem hud_scroll_slot_witness :
    (update ppSample inpScroll freshState).chosenSlot =
      ((freshState.chosenSlot - inpScroll.scroll) % 10 + 10) % 10 ∧
    0 ≤ (update ppSample inpScroll freshState).chosenSlot ∧
    (update ppSample inpScroll freshState).chosenSlot ≤ 9 :=
  (hud_scroll_slot ppSample inpScroll freshState rfl rfl rfl (by decide)
    (fun _ => rfl) (by decide) (by decide)).1 rfl rfl

/-- C6: during update, when exactly digit key N is just-pressed, N in
1..9 selects hotbar slot N-1 and digit key 0 selects slot 9, regardless
of the pause and inventory state stored in s. -/
theorem hud_digit_selection (pp : String → Bool) (inp : HudInput)
    (s : HudState) (hscroll : inp.scroll = 0) :
    (∀ d : Nat, 1 ≤ d → d ≤ 9 → onlyDigitKey inp.jpressed d →
      (update pp inp s).chosenSlot = (d : Int) - 1) ∧
    (onlyDigitKey inp.jpressed 0 → (update pp inp s).chosenSlot = 9) := by
  have hbase : (update pp inp s).chosenSlot = digitStep inp.jpressed
      ((panelsStep inp.visible (cursorStep
        (inventoryToggleStep inp.visible inp.inventoryBind
          (escapeStep inp.escapePressed inp.focusCaught
            (menuGuardStep pp (hiddenCloseStep inp.visible
              (hudVisStep inp.visible s))))))).chosenSlot) := by
    rw [update_chosenSlot, hscroll, scrollStep_zero, digitKeysStep_chosenSlot]
  constructor
  · intro d h1 h2 h
    rw [hbase, digitStep_only inp.jpressed d h1 h2 h]
  · intro h
    rw [hbase, digitStep_only0 inp.jpressed h]

/-- A frame input carrying only a press of digit key 3 (keycode 51). -/
def inpDigit3 : HudInput :=
  { visible := true, escapePressed := false, focusCaught := false,
    inventoryBind := false, scroll := 0,
    jpressed := fun k => k == 51 }

/-- Witness for C6: pressing digit key 3 in the paused sample state still
selects hotbar slot 2. -/
theorem hud_digit_selection_witness :
    (update ppSample inpDigit3 pausedState).chosenSlot = (3 : Int) - 1 :=
  (hud_digit_selection ppSample inpDigit3 pausedState rfl).1 3
    (by decide) (by decide)
    ⟨by decide, fun c _ _ h3 => by
      simpa [inpDigit3, digitKeycode, kNUM0, kNUM1] using h3⟩

theorem overlayStep_hotbarVisible (s : HudState) :
    (overlayStep s).hotbarVisible = s.hotbarVisible := rfl

theorem digitKeysStep_hotbarVisible (jp : Nat → Bool) (s : HudState) :
    (digitKeysStep jp s).hotbarVisible = s.hotbarVisible := rfl

theorem panelsStep_hotbarVisible (v : Bool) (s : HudState) :
    (panelsStep v s).hotbarVisible = v := rfl

theorem overlayStep_debugPanelVisible (s : HudState) :
    (overlayStep s).debugPanelVisible = s.debugPanelVisible := rfl

theorem digitKeysStep_debugPanelVisible (jp : Nat → Bool) (s : HudState) :
    (digitKeysStep jp s).debugPanelVisible = s.debugPanelVisible := rfl

theorem panelsStep_debugPanelVisible (v : Bool) (s : HudState) :
    (panelsStep v s).debugPanelVisible = s.debugPanelVisible := rfl

theorem hudVisStep_debugPanelVisible (v : Bool) (s : HudState) :
    (hudVisStep v s).debugPanelVisible = (s.playerDebug && v) := rfl

theorem overlayStep_playerDebug (s : HudState) :
    (overlayStep s).playerDebug = s.playerDebug := rfl

theorem digitKeysStep_playerDebug (jp : Nat → Bool) (s : HudState) :
    (digitKeysStep jp s).playerDebug = s.playerDebug := rfl

theorem panelsStep_playerDebug (v : Bool) (s : HudState) :
    (panelsStep v s).playerDebug = s.playerDebug := rfl

theorem hudVisStep_playerDebug (v : Bool) (s : HudState) :
    (hudVisStep v s).playerDebug = s.playerDebug := rfl

/-- A frame input with the HUD visible and no key, binding or scroll
activity at all. -/
def inpNone : HudInput :=
  { visible := true, escapePressed := false, focusCaught := false,
    inventoryBind := false, scroll := 0, jpressed := fun _ => false }

/-- Counterexample to C3 as stated: in the paused sample state (player
debug flag off) the frame leaves the debug panel invisible and composes
no crosshair, so neither element is shown regardless of state. -/
theorem hud_always_visible_counterexample :
    (update ppSample inpNone pausedState).debugPanelVisible = false ∧
    (draw (update ppSample inpNone pausedState)).crosshair = false := by
  constructor
  · rfl
  · rfl

/-- C3 (amended): each update shows the hotbar exactly when the HUD is
visible and the debug panel exactly when the player debug flag is set and
the HUD is visible; draw composes the crosshair exactly when not paused,
the cursor is locked and the player debug flag is off. -/
theorem hud_draw_visibility (pp : String → Bool) (inp : HudInput)
    (s : HudState) :
    (update pp inp s).hotbarVisible = inp.visible ∧
    (update pp inp s).debugPanelVisible = (s.playerDebug && inp.visible) ∧
    ((draw (update pp inp s)).crosshair = true ↔
      (update pp inp s).pause = false ∧
      (update pp inp s).cursorLocked = true ∧
      (update pp inp s).playerDebug = false) := by
  refine ⟨?_, ?_, ?_⟩
  · rw [show update pp inp s = overlayStep (scrollStep inp.scroll
      (digitKeysStep inp.jpressed (panelsStep inp.visible (cursorStep
        (inventoryToggleStep inp.visible inp.inventoryBind
          (escapeStep inp.escapePressed inp.focusCaught
            (menuGuardStep pp (hiddenCloseStep inp.visible
              (hudVisStep inp.visible s))))))))) from rfl]
    rw [overlayStep_hotbarVisible, scrollStep_hotbarVisible,
      digitKeysStep_hotbarVisible, panelsStep_hotbarVisible]
  · rw [show update pp inp s = overlayStep (scrollStep inp.scroll
      (digitKeysStep inp.jpressed (panelsStep inp.visible (cursorStep
        (inventoryToggleStep inp.visible inp.inventoryBind
          (escapeStep inp.escapePressed inp.focusCaught
            (menuGuardStep pp (hiddenCloseStep inp.visible
              (hudVisStep inp.visible s))))))))) from rfl]
    rw [overlayStep_debugPanelVisible, scrollStep_debugPanelVisible,
      digitKeysStep_debugPanelVisible, panelsStep_debugPanelVisible,
      cursorStep_debugPanelVisible, inventoryToggleStep_debugPanelVisible,
      escapeStep_debugPanelVisible, menuGuardStep_debugPanelVisible,
      hiddenCloseStep_debugPanelVisible, hudVisStep_debugPanelVisible]
  · simp [draw, and_assoc]

/-- C4: closing the inventory clears the drag state: the grabbed stack is
emptied, the open flag drops, the view and document pointers are nulled,
and the player backing inventory contents are untouched. -/
theorem hud_close_inventory (s : HudState) :
    (closeInventory s).grabbed = ItemStack.cleared ∧
    (closeInventory s).inventoryOpen = false ∧
    (closeInventory s).inventoryView = false ∧
    (closeInventory s).inventoryDocument = false ∧
    (closeInventory s).playerInventory = s.playerInventory :=
  ⟨rfl, rfl, rfl, rfl, rfl⟩

/-! ## Content-access panel (HudRenderer::createContentAccess)

Modelled from the spec: the Inventory class and the InventoryBuilder
(items/Inventory, frontend/InventoryView) are not among the provided
sources; per the spec an inventory is a grid-of-slots backing model, so
Inventory(0, itemsCount) is a row of itemsCount empty slots,
getSlot(i).set replaces slot i, and addGrid(cols, count, ...) records a
grid of cols columns showing count slots. -/

/-- The inventory built by the loop of lines 179-182: itemsCount empty
slots, then slot id-1 receives ItemStack(id, 1) for id = 1 to
itemsCount-1. -/
def contentAccessInventory (itemsCount : Nat) : List ItemStack :=
  (List.range' 1 (itemsCount - 1)).foldl
    (fun inv id => inv.set (id - 1) ⟨id, 1⟩)
    (List.replicate itemsCount ItemStack.cleared)

/-- The view produced by createContentAccess: the backing inventory and
the grid geometry passed to addGrid (8 columns, itemsCount-1 slots). -/
structure ContentAccessView where
  inventory : List ItemStack
  gridColumns : Nat
  gridCount : Int
deriving Repr, DecidableEq

/-- HudRenderer::createContentAccess for a content pack with itemsCount
item definitions. -/
def createContentAccess (itemsCount : Nat) : ContentAccessView :=
  { inventory := contentAccessInventory itemsCount,
    gridColumns := 8,
    gridCount := (itemsCount : Int) - 1 }

theorem foldl_set_length (l : List Nat) : ∀ inv : List ItemStack,
    (l.foldl (fun inv id => inv.set (id - 1) ⟨id, 1⟩) inv).length
      = inv.length := by
  induction l with
  | nil => intro inv; rfl
  | cons x xs ih =>
    intro inv
    rw [List.foldl_cons, ih, List.length_set]

theorem foldl_set_untouched (l : List Nat) (k : Nat) :
    ∀ inv : List ItemStack, (∀ e ∈ l, ¬(e - 1 = k)) →
      (l.foldl (fun inv id => inv.set (id - 1) ⟨id, 1⟩) inv)[k]?
        = inv[k]? := by
  induction l with
  | nil => intro inv _; rfl
  | cons x xs ih =>
    intro inv h
    rw [List.foldl_cons, ih _ (fun e he => h e (List.mem_cons_of_mem _ he)),
      List.getElem?_set_ne (h x (List.mem_cons_self _ _))]

theorem foldl_set_get (j : Nat) (hj1 : 1 ≤ j) :
    ∀ (n a : Nat) (inv : List ItemStack), a ≤ j → j < a + n → 1 ≤ a →
      j - 1 < inv.length →
      ((List.range' a n).foldl
        (fun inv id => inv.set (id - 1) ⟨id, 1⟩) inv)[j - 1]?
          = some ⟨j, 1⟩ := by
  intro n
  induction n with
  | zero =>
    intro a inv ha hj _ _
    omega
  | succ n ih =>
    intro a inv ha hj ha1 hlen
    rw [show List.range' a (n + 1) = a :: List.range' (a + 1) n from rfl,
      List.foldl_cons]
    by_cases hja : j = a
    · subst hja
      have hrest : ∀ e ∈ List.range' (j + 1) n, ¬(e - 1 = j - 1) := by
        intro e he
        obtain ⟨i, hi, rfl⟩ := List.mem_range'.mp he
        omega
      rw [foldl_set_untouched _ _ _ hrest,
        List.getElem?_set_self (by omega)]
    · exact ih (a + 1) (inv.set (a - 1) ⟨a, 1⟩) (by omega) (by omega)
        (by omega) (by rw [List.length_set]; exact hlen)

/-- C7: the content-access panel enumerates every item definition except
id 0: the backing inventory has itemsCount slots, slot id-1 holds a
one-item stack of item id for every id from 1 to itemsCount-1, and the
view is a grid of 8 columns over itemsCount-1 slots. -/
theorem hud_content_access (itemsCount id : Nat) (h1 : 1 ≤ id)
    (h2 : id < itemsCount) :
    (createContentAccess itemsCount).inventory.length = itemsCount ∧
    (createContentAccess itemsCount).inventory[id - 1]? = some ⟨id, 1⟩ ∧
    (createContentAccess itemsCount).gridColumns = 8 ∧
    (createContentAccess itemsCount).gridCount
      = (itemsCount : Int) - 1 := by
  refine ⟨?_, ?_, rfl, rfl⟩
  · show (contentAccessInventory itemsCount).length = itemsCount
    unfold contentAccessInventory
    rw [foldl_set_length, List.length_replicate]
  · show (contentAccessInventory itemsCount)[id - 1]? = some ⟨id, 1⟩
    unfold contentAccessInventory
    exact foldl_set_get id h1 (itemsCount - 1) 1 _ h1 (by omega)
      (by omega) (by rw [List.length_replicate]; omega)

/-- Witness for C7: with four item definitions, slot 1 of the
content-access inventory holds one item of id 2, and the grid shows three
slots in eight columns. -/
theorem hud_content_access_witness :
    (createContentAccess 4).inventory.length = 4 ∧
    (createContentAccess 4).inventory[2 - 1]? = some ⟨2, 1⟩ ∧
    (createContentAccess 4).gridColumns = 8 ∧
    (createContentAccess 4).gridCount = (4 : Int) - 1 :=
  hud_content_access 4 2 (by decide) (by decide)
